import Mathlib

/-!
# Verification of the `excel_af` spreadsheet-addressing library

Shallow embedding of the Python package `excel_af` (modules `row.py`,
`column.py`, `direction.py`, `cell.py`, `cell_checker.py`, `table.py`,
`custom_sheet.py`, `helpers.py`).  Python strings are modelled as lists of
characters (`PyStr`), raising `ValueError` (and the other synchronous
exceptions) is modelled by `Except String`, and the live spreadsheet handle
is modelled as a total map from addresses to cell values.
-/

namespace ExcelAf

/-- Python strings used as data (addresses, column names, directions)
are modelled as lists of characters. -/
abbrev PyStr := List Char

/-- Fuel-driven digit expansion (structural recursion, so that concrete
addresses evaluate inside the kernel); `fuel > n` always suffices. -/
def natToDigitListF : ℕ → ℕ → List Char
  | 0, _ => []
  | fuel + 1, n =>
    if n < 10 then [Char.ofNat (48 + n)]
    else natToDigitListF fuel (n / 10) ++ [Char.ofNat (48 + n % 10)]

/-- Decimal digits of a natural number, most significant first; models the
characters of Python `str(n)` for a non-negative `n`. -/
def natToDigitList (n : ℕ) : List Char := natToDigitListF (n + 1) n

/-- Python `str(i)` for an integer `i`. -/
def pyStrOfInt (i : ℤ) : PyStr :=
  if i < 0 then '-' :: natToDigitList i.natAbs else natToDigitList i.toNat

/-- Value of a list of decimal digit characters, as computed by Python
`int(''.join(ds))` when every character of `ds` is a digit. -/
def digitsToNat (ds : List Char) : ℕ :=
  ds.foldl (fun acc c => 10 * acc + (c.toNat - 48)) 0

/-! ## `row.py` — class `Row` -/

/-- Holds the state of a `Row` instance: the stored `__number` (field `base`) and the
stored `__shift` (field `shift`). -/
structure Row where
  base : ℤ
  shift : ℤ
  deriving DecidableEq, Repr

/-- The `Row.number` property: `self.__number + self.shift`. -/
def Row.number (r : Row) : ℤ := r.base + r.shift

/-- Constructor `Row.__init__(number, shift)`: the `shift` setter runs first and requires
a non-negative integer, then the `number` setter requires a positive
integer; each raises `ValueError` otherwise. -/
def mkRow (number : ℤ) (shift : ℤ) : Except String Row :=
  if 0 ≤ shift then
    if 1 ≤ number then .ok ⟨number, shift⟩
    else .error "Cell row must be positive integer number."
  else .error "Shift must be non-negative integer number."

/-- Operator `Row.__add__(other)`: `Row(number=self.number, shift=other)`. -/
def Row.add (r : Row) (other : ℤ) : Except String Row :=
  mkRow r.number other

/-! ## `column.py` — class `Column` -/

/-- State of a `Column` instance: the stored `__name` character (field
`base`) and the stored `__shift` (field `shift`). -/
structure Column where
  base : Char
  shift : ℤ
  deriving DecidableEq, Repr

/-- The `Column.name` property: `chr(ord(self.__name) + self.shift)`. -/
def Column.name (c : Column) : Char :=
  Char.ofNat (c.base.toNat + c.shift.toNat)

/-- Constructor `Column.__init__(name, shift)`: the `name` setter runs first and requires
a one-character string between `'A'` and `'Z'`, then the `shift` setter
requires an integer with `0 <= shift < 26 - ord(name) + ord('A')`; each
raises `ValueError` otherwise. -/
def mkColumn (name : PyStr) (shift : ℤ) : Except String Column :=
  match name with
  | [ch] =>
    if 65 ≤ ch.toNat ∧ ch.toNat ≤ 90 then
      if 0 ≤ shift ∧ shift < 26 - (ch.toNat : ℤ) + 65 then
        .ok ⟨ch, shift⟩
      else .error "Column after shifting must be single Latin capital letter."
    else .error "Cell column must be single Latin capital letter."
  | _ => .error "Cell column must be single Latin capital letter."

/-- Operator `Column.__add__(other)`: `Column(name=self.name, shift=other)`. -/
def Column.add (c : Column) (other : ℤ) : Except String Column :=
  mkColumn [c.name] other

/-! ## `direction.py` — class `Direction` -/

/-- The two directions accepted by the `direction` setter. -/
inductive Direction where
  | horizontal
  | vertical
  deriving DecidableEq, Repr

/-- Constructor `Direction.__init__(direction)`: accepts exactly the strings
`'horizontal'` and `'vertical'`, raising `ValueError` otherwise. -/
def mkDirection (direction : PyStr) : Except String Direction :=
  if direction = "horizontal".toList then .ok .horizontal
  else if direction = "vertical".toList then .ok .vertical
  else .error "Unacceptable direction."

/-! ## `cell.py` — class `Cell` -/

/-- State of a `Cell` instance: the stored `__row`, `__column` and
`__address`. -/
structure Cell where
  row : Row
  column : Column
  address : PyStr
  deriving DecidableEq, Repr

/-- Parser `Cell.get_row_and_column_from_address(address)`:
`row = int(''.join(digits of address))` (Python `int('')` raises
`ValueError` when the address holds no digit), then `Row(row)` and
`Column(''.join(letters of address))` are constructed in that order. -/
def get_row_and_column_from_address (address : PyStr) :
    Except String (Row × Column) :=
  let ds := address.filter Char.isDigit
  if ds.isEmpty then
    .error "invalid literal for int() with base 10"
  else do
    let r ← mkRow (digitsToNat ds) 0
    let c ← mkColumn (address.filter Char.isAlpha) 0
    pure (r, c)

/-- Serializer `Cell.get_address_from_row_and_column(row, column)`: the f-string
`f'{column}{row}'`, where `str(column)` is the one-character `name` and
`str(row)` is the decimal `number`. -/
def get_address_from_row_and_column (row : Row) (column : Column) : PyStr :=
  column.name :: pyStrOfInt row.number

/-- Constructor `Cell.__init__(address, row, column)` with `Row`/`Column` objects (or
`None`) for `row`/`column`.  The guards mirror Python truthiness: a `None`
or empty `address` is falsy, and `Row`/`Column` instances are always
truthy. -/
def cellInit (address : Option PyStr) (row : Option Row)
    (column : Option Column) : Except String Cell :=
  let ta : Bool := match address with | none => false | some s => !s.isEmpty
  if ta = true ∧ row = none ∧ column = none then do
    let a := address.getD []
    let (r, c) ← get_row_and_column_from_address a
    pure ⟨r, c, a⟩
  else
    match (ta, row, column) with
    | (false, some r, some c) =>
      .ok ⟨r, c, get_address_from_row_and_column r c⟩
    | _ => .error "Conflict between `address`, `row` and `column`."

/-! ## `table.py` — class `Table` -/

/-- State of a `Table` instance. -/
structure Table where
  first_cell : Cell
  direction : Direction
  size_longitudinal : ℤ
  size_transverse : ℤ
  deriving DecidableEq, Repr

/-- Constructor `Table.__init__(first_cell, direction, size_longitudinal,
size_transverse)`: `direction` goes through `get_instance(·, Direction)`
(here: a direction string), `size_longitudinal` must be at least 2 and
`size_transverse` at least 1, each raising `ValueError` otherwise. -/
def mkTable (first_cell : Cell) (direction : PyStr)
    (size_longitudinal : ℤ) (size_transverse : ℤ := 2) :
    Except String Table := do
  let d ← mkDirection direction
  if size_longitudinal < 2 then
    .error "Longitudinal size must be integer value greater than or equal to 2."
  else if size_transverse < 1 then
    .error "Transverse size must be integer value greater than or equal to 1."
  else
    .ok ⟨first_cell, d, size_longitudinal, size_transverse⟩

/-- Method `Table.get_address(shift_longitudinal, shift_transverse)`: rejects too
large shifts, swaps the shifts when the direction is horizontal, and builds
`Cell(row=Row(first_cell.row.number, row_shift),
column=Column(first_cell.column.name, column_shift)).address`. -/
def Table.get_address (t : Table) (shift_longitudinal : ℤ)
    (shift_transverse : ℤ := 0) : Except String PyStr :=
  if shift_longitudinal > t.size_longitudinal then
    .error "Too large `shift_longitudinal`."
  else if shift_transverse > t.size_transverse then
    .error "Too large `shift_transverse`."
  else
    let (row_shift, column_shift) :=
      if t.direction = .horizontal then
        (shift_transverse, shift_longitudinal)
      else (shift_longitudinal, shift_transverse)
    do
      let r ← mkRow t.first_cell.row.number row_shift
      let c ← mkColumn [t.first_cell.column.name] column_shift
      let cell ← cellInit none (some r) (some c)
      pure cell.address

/-- Method `Table.get_first_cell_address()`. -/
def Table.get_first_cell_address (t : Table) : PyStr :=
  t.first_cell.address

/-! ## Cell values

A cell of the live sheet holds `None`, a float, an int, a bool or a string;
the sheet handle itself is a total map from addresses to values. -/

/-- A Python value as stored in (or written to) a spreadsheet cell.  Floats
are modelled as rationals. -/
inductive Value where
  | vnone
  | vfloat (x : ℚ)
  | vint (n : ℤ)
  | vbool (b : Bool)
  | vstr (s : PyStr)
  deriving DecidableEq, Repr

/-- The modelled sheet: a total map from addresses to cell values. -/
abbrev Sheet := PyStr → Value

/-- Python `int(q)` on a real number: truncation toward zero. -/
def ratTrunc (q : ℚ) : ℤ :=
  if 0 ≤ q then ⌊q⌋ else -⌊-q⌋

/-- Decimal-literal parser standing in for Python `float(s)` on strings:
optional sign, integer digits, optional fractional digits (exponents,
whitespace, `inf`/`nan` are not modelled; no claim exercises them). -/
def parseDecimal (s : PyStr) : Option ℚ :=
  let (sign, body) :=
    match s with
    | '-' :: rest => ((-1 : ℚ), rest)
    | '+' :: rest => ((1 : ℚ), rest)
    | _ => ((1 : ℚ), s)
  let intPart := body.takeWhile Char.isDigit
  let rest := body.drop intPart.length
  match rest with
  | [] =>
    if intPart.isEmpty then none
    else some (sign * digitsToNat intPart)
  | '.' :: fracPart =>
    if fracPart.all Char.isDigit ∧ ¬(intPart.isEmpty ∧ fracPart.isEmpty) then
      some (sign * ((digitsToNat intPart : ℚ) +
        (digitsToNat fracPart : ℚ) / ((10 : ℚ) ^ fracPart.length)))
    else none
  | _ => none

/-- Python `float(value)` on a cell value (raises `TypeError` on `None`,
`ValueError` on an unparseable string). -/
def pyFloat : Value → Except String ℚ
  | .vnone => .error "float() argument must not be None"
  | .vfloat x => .ok x
  | .vint n => .ok n
  | .vbool b => .ok (if b then 1 else 0)
  | .vstr s =>
    match parseDecimal s with
    | some q => .ok q
    | none => .error "could not convert string to float"

/-- Digit-string parser standing in for Python `int(s)` on strings:
optional sign followed by at least one digit. -/
def parseInteger (s : PyStr) : Option ℤ :=
  let (sign, body) :=
    match s with
    | '-' :: rest => ((-1 : ℤ), rest)
    | '+' :: rest => ((1 : ℤ), rest)
    | _ => ((1 : ℤ), s)
  if body.isEmpty ∨ ¬body.all Char.isDigit then none
  else some (sign * digitsToNat body)

/-- Python `int(value)` on a cell value (floats truncate toward zero;
raises on `None` and on non-integer strings). -/
def pyInt : Value → Except String ℤ
  | .vnone => .error "int() argument must not be None"
  | .vfloat x => .ok (ratTrunc x)
  | .vint n => .ok n
  | .vbool b => .ok (if b then 1 else 0)
  | .vstr s =>
    match parseInteger s with
    | some n => .ok n
    | none => .error "invalid literal for int() with base 10"

/-! ## `cell_checker.py` — class `CellChecker` -/

/-- State of a `CellChecker` instance.  The `condition` callable is
modelled as a boolean predicate on cell values. -/
structure CellChecker where
  value : Value
  address : PyStr
  condition : Value → Bool
  error_message : String

/-- Method `CellChecker.get_error_message_for_cell()`. -/
def CellChecker.get_error_message_for_cell (c : CellChecker) : String :=
  "Unacceptable value of the cell `" ++ String.mk c.address ++ "`."

/-- Method `CellChecker.check()`: returns `True` when the condition holds and
raises `ValueError` otherwise. -/
def CellChecker.check (c : CellChecker) : Except String Bool :=
  if c.condition c.value then .ok true
  else .error (c.get_error_message_for_cell ++ "\n" ++ c.error_message)

/-! ## `custom_sheet.py` — class `CustomSheet`

The workbook/sheet handle (an `xlwings` COM object) is modelled as a total
map `Sheet` from addresses to cell values; `self.sheet.range(a).value`
is application of the map, and assignment to it is pointwise update. -/

/-- Keyword arguments for `CellChecker` as passed through
`cell_checker_kwargs` (the `value` and `address` arguments are supplied by
`get_number` itself). -/
structure CheckerKwargs where
  condition : Value → Bool := fun _ => true
  error_message : String := ""

/-- Assignment `self.sheet.range(address).value = v`. -/
def updateSheet (sheet : Sheet) (address : PyStr) (v : Value) : Sheet :=
  fun a => if a = address then v else sheet a

/-- Function `math_round(number, k)` from `helpers.py`, over rationals.  The
external `math_round_af.get_rounded_number` used by
`CustomSheet.set_value` is not part of this repository; modelled from the
spec ("round floats to a requested decimal precision") by this in-repo
function of the same author and purpose. -/
def math_round (number : ℚ) (number_of_digits_after_separator : ℤ) : ℚ :=
  let multiplier : ℤ := (10 : ℤ) ^ number_of_digits_after_separator.toNat
  let number_without_separator := number * multiplier
  let integer_part := ratTrunc number_without_separator
  let first_discarded_digit :=
    ratTrunc ((number_without_separator - integer_part) * 10)
  let integer_part :=
    if 5 ≤ first_discarded_digit then integer_part + 1 else integer_part
  (integer_part : ℚ) / (multiplier : ℚ)

/-- Python truthiness of the `accuracy : Optional[int]` argument:
`None` and `0` are falsy. -/
def truthyOptInt : Option ℤ → Bool
  | none => false
  | some n => n ≠ 0

/-- Method `CustomSheet.get_number(address, number_type, cell_checker_kwargs)`. -/
def get_number (sheet : Sheet) (address : PyStr) (number_type : PyStr)
    (cell_checker_kwargs : Option CheckerKwargs := none) :
    Except String (Option Value) := do
  let number := sheet address
  let kwargs := cell_checker_kwargs.getD {}
  let checked ← CellChecker.check
    ⟨number, address, kwargs.condition, kwargs.error_message⟩
  if checked then
    if number = .vnone then
      pure none
    else if number_type = "float".toList then
      (pyFloat number).map (fun q => some (.vfloat q))
    else if number_type = "int".toList then
      (pyInt number).map (fun n => some (.vint n))
    else .error "Unacceptable `number_type`."
  else
    pure none

/-- The value that `CustomSheet.set_value` actually stores: the float
rounded to `accuracy` digits when `accuracy` is truthy and the value is a
float, the value unchanged otherwise. -/
def writtenValue (value : Value) (accuracy : Option ℤ) : Value :=
  match value, accuracy with
  | .vfloat x, some n => if n ≠ 0 then .vfloat (math_round x n) else .vfloat x
  | v, _ => v

/-- Method `CustomSheet.set_value(value, address, accuracy)`: rounds only when
`accuracy` is truthy and the value is a float, then assigns to the cell. -/
def set_value (sheet : Sheet) (value : Value) (address : PyStr)
    (accuracy : Option ℤ := none) : Sheet :=
  match value, truthyOptInt accuracy with
  | .vfloat x, true =>
    updateSheet sheet address (.vfloat (math_round x (accuracy.getD 0)))
  | _, _ => updateSheet sheet address value

/-- Python `values[i]` on a list (raises `IndexError` out of range;
negative indices do not occur in the loops below). -/
def pyListGet (values : List Value) (i : ℕ) : Except String Value :=
  match values[i]? with
  | some v => .ok v
  | none => .error "list index out of range"

/-- The loop body sequence of `CustomSheet.set_numbers_list`: for each
remaining `shift_longitudinal`, compute the table address, fetch
`values[shift_longitudinal]`, write it, and remember the address. -/
def set_numbers_list_loop (t : Table) (values : List Value)
    (accuracy : Option ℤ) : List ℕ → PyStr × Sheet →
    Except String (PyStr × Sheet)
  | [], st => .ok st
  | i :: rest, (_, sheet) => do
    let address ← t.get_address (i : ℤ) 0
    let v ← pyListGet values i
    set_numbers_list_loop t values accuracy rest
      (address, set_value sheet v address accuracy)

/-- Method `CustomSheet.set_numbers_list(table, values, accuracy)`: starts from
the first cell's address, loops `shift_longitudinal` over
`range(table.size_longitudinal)` writing `values[shift_longitudinal]` at
each computed address, and returns the last address together with the
resulting sheet. -/
def set_numbers_list (sheet : Sheet) (t : Table) (values : List Value)
    (accuracy : Option ℤ) : Except String (PyStr × Sheet) :=
  set_numbers_list_loop t values accuracy
    (List.range t.size_longitudinal.toNat)
    (t.get_first_cell_address, sheet)

/-- The `value` computed by one iteration of
`CustomSheet.clear_or_fill_table`:
`list(data.items())[shift_longitudinal][shift_transverse]`, with `None`
substituted when `data` is `None` (`AttributeError`) or an index is out of
range (`IndexError`).  Indexing a `(key, value)` item at 0 yields the key
string, at 1 the value. -/
def tableItem (data : Option (List (PyStr × Value))) (sl st : ℕ) : Value :=
  match data with
  | none => .vnone
  | some items =>
    match items[sl]? with
    | none => .vnone
    | some item =>
      if st = 0 then .vstr item.1
      else if st = 1 then item.2
      else .vnone

/-- The loop body sequence of `CustomSheet.clear_or_fill_table` over the
flattened `(shift_longitudinal, shift_transverse)` pairs. -/
def clear_or_fill_loop (t : Table) (accuracy : Option ℤ)
    (data : Option (List (PyStr × Value))) : List (ℕ × ℕ) → PyStr × Sheet →
    Except String (PyStr × Sheet)
  | [], st => .ok st
  | (sl, stv) :: rest, (_, sheet) => do
    let value := tableItem data sl stv
    let address ← t.get_address (sl : ℤ) (stv : ℤ)
    clear_or_fill_loop t accuracy data rest
      (address, set_value sheet value address accuracy)

/-- The `(shift_longitudinal, shift_transverse)` pairs visited by the
nested loops of `clear_or_fill_table`, in iteration order. -/
def tablePairs (sizeL sizeT : ℕ) : List (ℕ × ℕ) :=
  (List.range sizeL).flatMap (fun sl => (List.range sizeT).map (fun st => (sl, st)))

/-- Method `CustomSheet.clear_or_fill_table(table, accuracy, data)`: visits every
`(shift_longitudinal, shift_transverse)` pair of the rectangle in row-major
iteration order, writing the corresponding data item (or `None`) into each
cell, and returns the last address together with the resulting sheet. -/
def clear_or_fill_table (sheet : Sheet) (t : Table)
    (accuracy : Option ℤ := some 2)
    (data : Option (List (PyStr × Value)) := none) :
    Except String (PyStr × Sheet) :=
  clear_or_fill_loop t accuracy data
    (tablePairs t.size_longitudinal.toNat t.size_transverse.toNat)
    (t.get_first_cell_address, sheet)

/-- Whether a call returned normally. -/
def isOk {α : Type} : Except String α → Bool
  | .ok _ => true
  | .error _ => false

/-- Whether a call raised an exception. -/
def isErr {α : Type} : Except String α → Bool
  | .ok _ => false
  | .error _ => true

instance {ε α : Type} [DecidableEq ε] [DecidableEq α] :
    DecidableEq (Except ε α) := fun x y =>
  match x, y with
  | .ok a, .ok b =>
    if h : a = b then .isTrue (by rw [h])
    else .isFalse (by intro hh; cases hh; exact h rfl)
  | .error a, .error b =>
    if h : a = b then .isTrue (by rw [h])
    else .isFalse (by intro hh; cases hh; exact h rfl)
  | .ok _, .error _ => .isFalse (by intro h; cases h)
  | .error _, .ok _ => .isFalse (by intro h; cases h)

/-! ## Helper lemmas on characters and decimal digit lists -/

theorem char_toNat_ofNat {n : ℕ} (h : n < 55296) : (Char.ofNat n).toNat = n := by
  simp [Char.ofNat, Nat.isValidChar, h, Char.ofNatAux, Char.toNat, UInt32.toNat]

theorem char_isDigit_iff (c : Char) :
    c.isDigit = (48 ≤ c.toNat && c.toNat ≤ 57) := by
  simp [Char.isDigit, Char.le_def, Char.toNat, UInt32.le_def, BitVec.le_def,
    UInt32.toNat, decide_eq_decide]

theorem char_isAlpha_iff (c : Char) :
    c.isAlpha = ((65 ≤ c.toNat && c.toNat ≤ 90) ||
      (97 ≤ c.toNat && c.toNat ≤ 122)) := by
  simp [Char.isAlpha, Char.isUpper, Char.isLower, Char.le_def, Char.toNat,
    UInt32.le_def, BitVec.le_def, UInt32.toNat, decide_eq_decide]

theorem isDigit_ofNat {m : ℕ} (h1 : 48 ≤ m) (h2 : m ≤ 57) :
    (Char.ofNat m).isDigit = true := by
  rw [char_isDigit_iff, char_toNat_ofNat (by omega)]
  simp [h1, h2]

theorem not_isAlpha_of_isDigit {c : Char} (h : c.isDigit = true) :
    c.isAlpha = false := by
  rw [char_isDigit_iff] at h
  rw [char_isAlpha_iff]
  simp only [Bool.and_eq_true, Bool.or_eq_false_iff, Bool.and_eq_false_iff,
    decide_eq_true_eq, decide_eq_false_iff_not] at *
  omega

theorem not_isDigit_of_upper {c : Char} (h1 : 65 ≤ c.toNat)
    (h2 : c.toNat ≤ 90) : c.isDigit = false := by
  rw [char_isDigit_iff]
  simp only [Bool.and_eq_false_iff, decide_eq_false_iff_not]
  omega

theorem isAlpha_of_upper {c : Char} (h1 : 65 ≤ c.toNat) (h2 : c.toNat ≤ 90) :
    c.isAlpha = true := by
  rw [char_isAlpha_iff]
  simp only [Bool.or_eq_true, Bool.and_eq_true, decide_eq_true_eq]
  omega

theorem natToDigitListF_fuel {f1 f2 n : ℕ} (h1 : n < f1) (h2 : n < f2) :
    natToDigitListF f1 n = natToDigitListF f2 n := by
  induction f1 generalizing n f2 with
  | zero => omega
  | succ g ih =>
    cases f2 with
    | zero => omega
    | succ h =>
      simp only [natToDigitListF]
      by_cases hn : n < 10
      · simp [hn]
      · have hlt : n / 10 < n := Nat.div_lt_self (by omega) (by norm_num)
        simp only [hn, if_false]
        rw [ih (by omega) (show n / 10 < h by omega)]

theorem natToDigitList_eq (n : ℕ) :
    natToDigitList n =
      if n < 10 then [Char.ofNat (48 + n)]
      else natToDigitList (n / 10) ++ [Char.ofNat (48 + n % 10)] := by
  by_cases hn : n < 10
  · simp [natToDigitList, natToDigitListF, hn]
  · have hlt : n / 10 < n := Nat.div_lt_self (by omega) (by norm_num)
    rw [if_neg hn,
      show natToDigitList n = natToDigitListF n (n / 10) ++
        [Char.ofNat (48 + n % 10)] from by
          simp [natToDigitList, natToDigitListF, hn],
      natToDigitListF_fuel hlt (Nat.lt_succ_self _)]
    rfl

theorem natToDigitList_all_digit (n : ℕ) :
    (natToDigitList n).all Char.isDigit = true := by
  induction n using Nat.strong_induction_on with
  | _ n ih =>
    rw [natToDigitList_eq]
    split
    · next h =>
      simp [isDigit_ofNat (by omega) (by omega : 48 + n ≤ 57)]
    · next h =>
      have hd := Nat.mod_lt n (show 0 < 10 by norm_num)
      simp [List.all_append,
        ih (n / 10) (Nat.div_lt_self (by omega) (by norm_num)),
        isDigit_ofNat (by omega) (by omega : 48 + n % 10 ≤ 57)]

theorem digitsToNat_append (xs : List Char) (c : Char) :
    digitsToNat (xs ++ [c]) = 10 * digitsToNat xs + (c.toNat - 48) := by
  simp [digitsToNat, List.foldl_append]

theorem digitsToNat_natToDigitList (n : ℕ) :
    digitsToNat (natToDigitList n) = n := by
  induction n using Nat.strong_induction_on with
  | _ n ih =>
    rw [natToDigitList_eq]
    split
    · next h =>
      simp [digitsToNat, char_toNat_ofNat (show 48 + n < 55296 by omega)]
    · next h =>
      have hd := Nat.mod_lt n (show 0 < 10 by norm_num)
      rw [digitsToNat_append,
        ih (n / 10) (Nat.div_lt_self (by omega) (by norm_num)),
        char_toNat_ofNat (by omega)]
      omega

theorem natToDigitList_ne_nil (n : ℕ) : natToDigitList n ≠ [] := by
  rw [natToDigitList_eq]
  split <;> simp

theorem natToDigitList_injective {m n : ℕ}
    (h : natToDigitList m = natToDigitList n) : m = n := by
  have := digitsToNat_natToDigitList m
  rw [h, digitsToNat_natToDigitList] at this
  omega

theorem pyStrOfInt_nonneg {i : ℤ} (h : 0 ≤ i) :
    pyStrOfInt i = natToDigitList i.toNat := by
  simp [pyStrOfInt, not_lt.mpr h]

theorem filter_digit_serialized {ch : Char} (h1 : 65 ≤ ch.toNat)
    (h2 : ch.toNat ≤ 90) (n : ℕ) :
    (ch :: natToDigitList n).filter Char.isDigit = natToDigitList n := by
  have hall := natToDigitList_all_digit n
  simp only [List.all_eq_true] at hall
  simp [List.filter_cons, not_isDigit_of_upper h1 h2,
    List.filter_eq_self.mpr hall]

theorem filter_alpha_serialized {ch : Char} (h1 : 65 ≤ ch.toNat)
    (h2 : ch.toNat ≤ 90) (n : ℕ) :
    (ch :: natToDigitList n).filter Char.isAlpha = [ch] := by
  have hall := natToDigitList_all_digit n
  simp only [List.all_eq_true] at hall
  have hnone : (natToDigitList n).filter Char.isAlpha = [] := by
    rw [List.filter_eq_nil_iff]
    intro a ha
    simp [not_isAlpha_of_isDigit (hall a ha)]
  simp [List.filter_cons, isAlpha_of_upper h1 h2, hnone]

theorem parse_serialized {ch : Char} {n : ℕ} (h1 : 65 ≤ ch.toNat)
    (h2 : ch.toNat ≤ 90) (hn : 1 ≤ n) :
    get_row_and_column_from_address (ch :: natToDigitList n) =
      .ok (⟨(n : ℤ), 0⟩, ⟨ch, 0⟩) := by
  unfold get_row_and_column_from_address
  rw [filter_digit_serialized h1 h2, filter_alpha_serialized h1 h2]
  have hne : (natToDigitList n).isEmpty = false := by
    cases h : natToDigitList n with
    | nil => exact absurd h (natToDigitList_ne_nil n)
    | cons a l => simp
  simp only [hne, Bool.false_eq_true, if_false, digitsToNat_natToDigitList]
  simp only [mkRow, mkColumn, h1, h2,
    show (1 : ℤ) ≤ (n : ℤ) by exact_mod_cast hn,
    show (0 : ℤ) < 26 - (ch.toNat : ℤ) + 65 by omega, le_refl, if_true,
    and_self, if_pos, true_and]
  rfl

theorem cellInit_some_address {a : PyStr} (hne : a ≠ []) :
    cellInit (some a) none none =
      (get_row_and_column_from_address a).map (fun rc => ⟨rc.1, rc.2, a⟩) := by
  have : a.isEmpty = false := by cases a with
    | nil => exact absurd rfl hne
    | cons x l => simp
  simp only [cellInit, this]
  cases h : get_row_and_column_from_address a <;>
    simp [h, Except.map, bind, Except.bind, pure, Except.pure]

/-! ## Claims about `Row` and `Column` construction and addition -/

theorem mkColumn_single (ch : Char) (shift : ℤ) :
    mkColumn [ch] shift =
      if 65 ≤ ch.toNat ∧ ch.toNat ≤ 90 then
        if 0 ≤ shift ∧ shift < 26 - (ch.toNat : ℤ) + 65 then
          .ok ⟨ch, shift⟩
        else
          .error "Column after shifting must be single Latin capital letter."
      else .error "Cell column must be single Latin capital letter." := rfl

/-- C5: `Column(name, shift)` constructs successfully exactly when `name` is
a single Latin capital letter and `shift` is a non-negative integer such
that the shifted letter stays within `'A'..'Z'` (`shift ≤ ord('Z') -
ord(name)`), raising `ValueError` otherwise; on success the `name` property
equals the shifted letter `chr(ord(name) + shift)`.  In particular
`Column('A', 1).name == 'B'`, `Column('Z', 0)` is valid, and
`Column('Z', 1)` raises. -/
theorem column_construction (name : PyStr) (shift : ℤ) :
    (isOk (mkColumn name shift) = true ↔
      ∃ ch, name = [ch] ∧ 65 ≤ ch.toNat ∧ ch.toNat ≤ 90 ∧
        0 ≤ shift ∧ shift ≤ 90 - (ch.toNat : ℤ)) ∧
    (∀ ch c, name = [ch] → mkColumn name shift = .ok c →
      c.name = Char.ofNat (ch.toNat + shift.toNat)) ∧
    (mkColumn ['A'] 1).map Column.name = .ok 'B' ∧
    isOk (mkColumn ['Z'] 0) = true ∧
    mkColumn ['Z'] 1 =
      .error "Column after shifting must be single Latin capital letter." := by
  refine ⟨?_, ?_, by decide, by decide, by decide⟩
  · cases name with
    | nil => simp [mkColumn, isOk]
    | cons ch rest =>
      cases rest with
      | nil =>
        rw [mkColumn_single]
        split_ifs with hname hshift
        · simp only [isOk, true_iff]
          exact ⟨ch, rfl, hname.1, hname.2, hshift.1, by omega⟩
        · simp only [isOk, Bool.false_eq_true, false_iff]
          rintro ⟨ch', heq, _, _, h4, h5⟩
          cases heq
          exact hshift ⟨h4, by omega⟩
        · simp only [isOk, Bool.false_eq_true, false_iff]
          rintro ⟨ch', heq, h2, h3, _, _⟩
          cases heq
          exact hname ⟨h2, h3⟩
      | cons c2 rest2 => simp [mkColumn, isOk]
  · intro ch c hname heq
    subst hname
    rw [mkColumn_single] at heq
    split_ifs at heq
    cases heq
    rfl

/-- Witness for `column_construction`: `Column('C', 2)` constructs and its
`name` is `'E'`. -/
theorem column_construction_witness :
    isOk (mkColumn ['C'] 2) = true ∧
    (mkColumn ['C'] 2).map Column.name = .ok 'E' := by
  have h := column_construction ['C'] 2
  refine ⟨h.1.mpr ⟨'C', rfl, by decide, by decide, by decide, by decide⟩, ?_⟩
  have h2 := h.2.1 'C' ⟨'C', 2⟩ rfl (by decide)
  rw [show mkColumn ['C'] 2 = .ok ⟨'C', 2⟩ from by decide]
  rw [Except.map, h2]
  decide

/-- C6: `Row(n, s)` constructs successfully for every integer `n ≥ 1` and
`s ≥ 0` with `Row(n, s).number == n + s`; a non-positive base number or a
negative shift is rejected with `ValueError`. -/
theorem row_construction (number shift : ℤ) :
    (1 ≤ number → 0 ≤ shift →
      ∃ r, mkRow number shift = .ok r ∧ r.number = number + shift) ∧
    (number < 1 ∨ shift < 0 → isErr (mkRow number shift) = true) := by
  constructor
  · intro h1 h2
    exact ⟨⟨number, shift⟩, by simp [mkRow, h1, h2], rfl⟩
  · intro h
    unfold mkRow
    split_ifs with h1 h2
    · omega
    · rfl
    · rfl

/-- Witness for `row_construction`: `Row(3, 2).number == 5` and
`Row(0, 0)` raises. -/
theorem row_construction_witness :
    (∃ r, mkRow 3 2 = .ok r ∧ r.number = 5) ∧
    isErr (mkRow 0 0) = true := by
  obtain ⟨r, hr, hn⟩ := (row_construction 3 2).1 (by decide) (by decide)
  exact ⟨⟨r, hr, by rw [hn]; decide⟩, (row_construction 0 0).2 (by decide)⟩

/-- C9: adding an integer to a `Row` or `Column` acts on the effective
value, folding the existing shift into the base of the result: for every
valid `Row r` and `k ≥ 0`, `(r + k).number == r.number + k`; for every
valid `Column c` and `k` keeping the result within `'A'..'Z'`,
`(c + k).name == chr(ord(c.name) + k)`. -/
theorem add_on_effective_value :
    (∀ (r : Row) (k : ℤ), 1 ≤ r.number → 0 ≤ k →
      ∃ r2, r.add k = .ok r2 ∧ r2.number = r.number + k) ∧
    (∀ (c : Column) (k : ℤ), 65 ≤ c.name.toNat → c.name.toNat ≤ 90 →
      0 ≤ k → (c.name.toNat : ℤ) + k ≤ 90 →
      ∃ c2, c.add k = .ok c2 ∧
        c2.name = Char.ofNat (c.name.toNat + k.toNat)) := by
  constructor
  · intro r k h1 h2
    exact ⟨⟨r.number, k⟩, by simp [Row.add, mkRow, h1, h2], rfl⟩
  · intro c k h1 h2 h3 h4
    refine ⟨⟨c.name, k⟩, ?_, rfl⟩
    simp [Column.add, mkColumn, h1, h2, h3,
      show k < 26 - (c.name.toNat : ℤ) + 65 by omega]

/-- Witness for `add_on_effective_value`: `(Row(3) + 2).number == 5` and
`(Column('A') + 3).name == 'D'`. -/
theorem add_on_effective_value_witness :
    (∃ r2, Row.add ⟨3, 0⟩ 2 = .ok r2 ∧ r2.number = 5) ∧
    (∃ c2, Column.add ⟨'A', 0⟩ 3 = .ok c2 ∧ c2.name = 'D') := by
  obtain ⟨r2, hr, hrn⟩ :=
    add_on_effective_value.1 ⟨3, 0⟩ 2 (by decide) (by decide)
  obtain ⟨c2, hc, hcn⟩ :=
    add_on_effective_value.2 ⟨'A', 0⟩ 3 (by decide) (by decide) (by decide)
      (by decide)
  exact ⟨⟨r2, hr, by rw [hrn]; decide⟩, ⟨c2, hc, by rw [hcn]; decide⟩⟩

/-! ## Claims about `Cell` construction and the address round trip -/

/-- C7: constructing a `Cell` with exactly one of `{address}` or
`{row, column}` supplied succeeds (given valid values), while supplying
both an address and a row/column, supplying neither, or supplying only a
row or only a column raises `ValueError`. -/
theorem cell_construction_exclusive (a : PyStr) (r : Row) (c : Column) :
    (a ≠ [] → isOk (get_row_and_column_from_address a) = true →
      isOk (cellInit (some a) none none) = true) ∧
    isOk (cellInit none (some r) (some c)) = true ∧
    (a ≠ [] → isErr (cellInit (some a) (some r) (some c)) = true) ∧
    isErr (cellInit none none none) = true ∧
    isErr (cellInit none (some r) none) = true ∧
    isErr (cellInit none none (some c)) = true := by
  refine ⟨?_, rfl, ?_, rfl, rfl, rfl⟩
  · intro hne hok
    rw [cellInit_some_address hne]
    cases h : get_row_and_column_from_address a with
    | ok rc => simp [Except.map, isOk]
    | error e => rw [h] at hok; exact absurd hok (by simp [isOk])
  · intro hne
    cases a with
    | nil => exact absurd rfl hne
    | cons x l => simp [cellInit, isErr]

/-- Witness for `cell_construction_exclusive` at address `'B3'`,
`Row(3)`, `Column('B')`. -/
theorem cell_construction_exclusive_witness :
    isOk (cellInit (some ['B', '3']) none none) = true ∧
    isOk (cellInit none (some ⟨3, 0⟩) (some ⟨'B', 0⟩)) = true ∧
    isErr (cellInit (some ['B', '3']) (some ⟨3, 0⟩) (some ⟨'B', 0⟩)) = true ∧
    isErr (cellInit none none none) = true := by
  have h := cell_construction_exclusive ['B', '3'] ⟨3, 0⟩ ⟨'B', 0⟩
  exact ⟨h.1 (by decide) (by decide), h.2.1, h.2.2.1 (by decide), h.2.2.2.1⟩

/-- C4 counterexample: the address `'3B'` is accepted by
`Cell(address='3B')` (digits and letters are separated wherever they
occur), yet re-serializing the resulting row and column produces `'B3'`,
not `'3B'` — so re-serialization does not reproduce every accepted
address. -/
theorem cell_roundtrip_counterexample :
    isOk (cellInit (some ['3', 'B']) none none) = true ∧
    (cellInit (some ['3', 'B']) none none).map Cell.address =
      .ok ['3', 'B'] ∧
    (cellInit (some ['3', 'B']) none none).map
      (fun cell => get_address_from_row_and_column cell.row cell.column) =
      .ok ['B', '3'] ∧
    (['B', '3'] : PyStr) ≠ ['3', 'B'] := by decide

/-- C4 (amended): serialization followed by parsing is the identity on
(row number, column name): for every valid `Row r` and `Column c`,
`Cell(address=Cell(row=r, column=c).address)` has the same row number and
column name.  For an accepted address string `a`, the constructed cell's
`address` equals `a` verbatim, but re-serializing its row and column
reproduces `a` only for canonical addresses — a capital letter followed by
the decimal digits of the row number (as for `a = 'B3'`); for other
accepted strings such as `'3B'` it yields the canonical form instead. -/
theorem cell_address_roundtrip (r : Row) (c : Column) (ch : Char) (n : ℕ) :
    (1 ≤ r.number → 65 ≤ c.name.toNat → c.name.toNat ≤ 90 →
      ∃ cell,
        cellInit (some (get_address_from_row_and_column r c)) none none =
          .ok cell ∧
        cell.row.number = r.number ∧ cell.column.name = c.name) ∧
    (65 ≤ ch.toNat → ch.toNat ≤ 90 → 1 ≤ n →
      ∃ cell,
        cellInit (some (ch :: natToDigitList n)) none none = .ok cell ∧
        cell.address = ch :: natToDigitList n ∧
        get_address_from_row_and_column cell.row cell.column =
          ch :: natToDigitList n) ∧
    (cellInit (some ['B', '3']) none none).map
      (fun cell => (cell.row.number, cell.column.name)) = .ok (3, 'B') ∧
    (cellInit none (some ⟨3, 0⟩) (some ⟨'B', 0⟩)).map Cell.address =
      .ok ['B', '3'] := by
  refine ⟨?_, ?_, by decide, by decide⟩
  · intro h1 h2 h3
    have hser : get_address_from_row_and_column r c =
        c.name :: natToDigitList r.number.toNat := by
      rw [get_address_from_row_and_column, pyStrOfInt_nonneg (by omega)]
    refine ⟨⟨⟨(r.number.toNat : ℤ), 0⟩, ⟨c.name, 0⟩,
      get_address_from_row_and_column r c⟩, ?_, ?_, ?_⟩
    · rw [hser, cellInit_some_address (by simp),
        parse_serialized h2 h3 (by omega)]
      rw [Except.map, ← hser]
    · show (r.number.toNat : ℤ) + 0 = r.number
      omega
    · show Char.ofNat (c.name.toNat + (0 : ℤ).toNat) = c.name
      rw [show (0 : ℤ).toNat = 0 from rfl, Nat.add_zero, Char.ofNat_toNat]
  · intro h1 h2 h3
    refine ⟨⟨⟨(n : ℤ), 0⟩, ⟨ch, 0⟩, ch :: natToDigitList n⟩, ?_, rfl, ?_⟩
    · rw [cellInit_some_address (by simp), parse_serialized h1 h2 h3]
      rfl
    · show Char.ofNat (ch.toNat + (0 : ℤ).toNat) ::
        pyStrOfInt ((n : ℤ) + 0) = ch :: natToDigitList n
      rw [show (0 : ℤ).toNat = 0 from rfl, Nat.add_zero, Char.ofNat_toNat,
        Int.add_zero, pyStrOfInt_nonneg (by omega)]
      simp

/-- Witness for `cell_address_roundtrip` at `Row(3)`, `Column('B')`,
`ch = 'B'`, `n = 3`. -/
theorem cell_address_roundtrip_witness :
    (∃ cell,
      cellInit (some (get_address_from_row_and_column ⟨3, 0⟩ ⟨'B', 0⟩))
        none none = .ok cell ∧
      cell.row.number = Row.number ⟨3, 0⟩ ∧
      cell.column.name = Column.name ⟨'B', 0⟩) ∧
    (∃ cell,
      cellInit (some ('B' :: natToDigitList 3)) none none = .ok cell ∧
      cell.address = 'B' :: natToDigitList 3 ∧
      get_address_from_row_and_column cell.row cell.column =
        'B' :: natToDigitList 3) := by
  have h := cell_address_roundtrip ⟨3, 0⟩ ⟨'B', 0⟩ 'B' 3
  exact ⟨h.1 (by decide) (by decide) (by decide),
    h.2.1 (by decide) (by decide) (by decide)⟩

/-! ## Claims about `Table.get_address` -/

theorem get_address_ok (t : Table) (sl st rs cs : ℤ)
    (hdir : (if t.direction = .horizontal then ((st, sl) : ℤ × ℤ)
      else (sl, st)) = (rs, cs))
    (hsl : sl ≤ t.size_longitudinal) (hst : st ≤ t.size_transverse)
    (hrow : 1 ≤ t.first_cell.row.number)
    (h1 : 65 ≤ t.first_cell.column.name.toNat)
    (h2 : t.first_cell.column.name.toNat ≤ 90)
    (hrs : 0 ≤ rs) (hcs : 0 ≤ cs)
    (hbound : (t.first_cell.column.name.toNat : ℤ) + cs ≤ 90) :
    t.get_address sl st =
      .ok (Char.ofNat (t.first_cell.column.name.toNat + cs.toNat) ::
        pyStrOfInt (t.first_cell.row.number + rs)) := by
  have hmr : mkRow t.first_cell.row.number rs =
      .ok ⟨t.first_cell.row.number, rs⟩ := by
    rw [mkRow, if_pos hrs, if_pos hrow]
  have hmc : mkColumn [t.first_cell.column.name] cs =
      .ok ⟨t.first_cell.column.name, cs⟩ := by
    rw [mkColumn_single, if_pos ⟨h1, h2⟩, if_pos ⟨hcs, by omega⟩]
  unfold Table.get_address
  rw [if_neg (not_lt.mpr hsl), if_neg (not_lt.mpr hst), hdir]
  simp only [bind, Except.bind, hmr, hmc]
  rfl

/-- C2: for every `Table` with in-range shifts, when the direction is
vertical `get_address(shift_longitudinal, shift_transverse)` returns the
address whose row number is `first_cell.row.number + shift_longitudinal`
and whose column letter is the first cell's column letter shifted by
`shift_transverse`; when the direction is horizontal the two shifts swap
roles.  In particular `Table(first_cell=Cell('A1'), direction='vertical',
size_longitudinal=3).get_address(1) == 'A2'`, and the same table with
`direction='horizontal'` gives `'B1'`. -/
theorem table_get_address (t : Table) (sl st : ℤ)
    (hrow : 1 ≤ t.first_cell.row.number)
    (h1 : 65 ≤ t.first_cell.column.name.toNat)
    (h2 : t.first_cell.column.name.toNat ≤ 90)
    (hsl0 : 0 ≤ sl) (hsl : sl ≤ t.size_longitudinal)
    (hst0 : 0 ≤ st) (hst : st ≤ t.size_transverse) :
    (t.direction = .vertical →
      (t.first_cell.column.name.toNat : ℤ) + st ≤ 90 →
      t.get_address sl st = .ok
        (Char.ofNat (t.first_cell.column.name.toNat + st.toNat) ::
          pyStrOfInt (t.first_cell.row.number + sl))) ∧
    (t.direction = .horizontal →
      (t.first_cell.column.name.toNat : ℤ) + sl ≤ 90 →
      t.get_address sl st = .ok
        (Char.ofNat (t.first_cell.column.name.toNat + sl.toNat) ::
          pyStrOfInt (t.first_cell.row.number + st))) ∧
    (do
      let cell ← cellInit (some ['A', '1']) none none
      let tv ← mkTable cell "vertical".toList 3
      tv.get_address 1) = .ok (['A', '2'] : PyStr) ∧
    (do
      let cell ← cellInit (some ['A', '1']) none none
      let th ← mkTable cell "horizontal".toList 3
      th.get_address 1) = .ok (['B', '1'] : PyStr) := by
  refine ⟨?_, ?_, by decide, by decide⟩
  · intro hd hb
    exact get_address_ok t sl st sl st (by rw [hd]; simp) hsl hst hrow h1 h2
      hsl0 hst0 hb
  · intro hd hb
    exact get_address_ok t sl st st sl (by rw [hd]; simp) hsl hst hrow h1 h2
      hst0 hsl0 hb

/-- Witness for `table_get_address` on the vertical table with first cell
`'A1'` and sizes 3 × 2, at shifts (1, 0) — the expected address is
`'A2'`. -/
theorem table_get_address_witness :
    Table.get_address ⟨⟨⟨1, 0⟩, ⟨'A', 0⟩, ['A', '1']⟩, .vertical, 3, 2⟩ 1 0 =
      .ok (['A', '2'] : PyStr) := by
  have h := (table_get_address
    ⟨⟨⟨1, 0⟩, ⟨'A', 0⟩, ['A', '1']⟩, .vertical, 3, 2⟩ 1 0
    (by decide) (by decide) (by decide) (by decide) (by decide)
    (by decide) (by decide)).1 rfl (by decide)
  rw [h]
  decide

/-- C3: `Table.get_address` raises `ValueError` whenever
`shift_longitudinal` exceeds `size_longitudinal` or `shift_transverse`
exceeds `size_transverse`, and returns an address without error for every
pair of shifts addressing a cell inside the table (`0 ≤ shift < size` on
both axes, with the shifted column still within `'A'..'Z'`). -/
theorem table_get_address_bounds (t : Table) (sl st : ℤ) :
    ((sl > t.size_longitudinal ∨ st > t.size_transverse) →
      isErr (t.get_address sl st) = true) ∧
    (1 ≤ t.first_cell.row.number →
      65 ≤ t.first_cell.column.name.toNat →
      t.first_cell.column.name.toNat ≤ 90 →
      0 ≤ sl → sl < t.size_longitudinal →
      0 ≤ st → st < t.size_transverse →
      (t.first_cell.column.name.toNat : ℤ) +
        (if t.direction = .horizontal then sl else st) ≤ 90 →
      isOk (t.get_address sl st) = true) := by
  constructor
  · intro h
    unfold Table.get_address
    by_cases h1 : sl > t.size_longitudinal
    · rw [if_pos h1]
      rfl
    · rw [if_neg h1, if_pos (h.resolve_left h1)]
      rfl
  · intro hrow h1 h2 hsl0 hsl hst0 hst hb
    cases hdir : t.direction with
    | horizontal =>
      rw [get_address_ok t sl st st sl (by rw [hdir]; simp) (by omega)
        (by omega) hrow h1 h2 hst0 hsl0 (by rw [hdir] at hb; simpa using hb)]
      rfl
    | vertical =>
      rw [get_address_ok t sl st sl st (by rw [hdir]; simp) (by omega)
        (by omega) hrow h1 h2 hsl0 hst0 (by rw [hdir] at hb; simpa using hb)]
      rfl

/-- Witness for `table_get_address_bounds` on the vertical table with
first cell `'A1'` and sizes 3 × 2: shift 4 raises, shifts (1, 1) are
accepted. -/
theorem table_get_address_bounds_witness :
    isErr (Table.get_address
      ⟨⟨⟨1, 0⟩, ⟨'A', 0⟩, ['A', '1']⟩, .vertical, 3, 2⟩ 4 0) = true ∧
    isOk (Table.get_address
      ⟨⟨⟨1, 0⟩, ⟨'A', 0⟩, ['A', '1']⟩, .vertical, 3, 2⟩ 1 1) = true := by
  have h1 := (table_get_address_bounds
    ⟨⟨⟨1, 0⟩, ⟨'A', 0⟩, ['A', '1']⟩, .vertical, 3, 2⟩ 4 0).1
    (Or.inl (by decide))
  have h2 := (table_get_address_bounds
    ⟨⟨⟨1, 0⟩, ⟨'A', 0⟩, ['A', '1']⟩, .vertical, 3, 2⟩ 1 1).2
    (by decide) (by decide) (by decide) (by decide) (by decide) (by decide)
    (by decide) (by decide)
  exact ⟨h1, h2⟩

/-! ## Claims about the `CustomSheet` read and write paths -/

/-- C10: `CustomSheet.set_value` applies rounding only when `accuracy` is
truthy and the value is a float: if `accuracy` is `None` or `0`, or if the
value is not a float (ints, strings, bools, `None`), the value is written
unchanged; in particular `accuracy=0` for a float writes the float without
rounding. -/
theorem set_value_rounding_policy (sheet : Sheet) (value : Value)
    (address : PyStr) (accuracy : Option ℤ) :
    (accuracy = none ∨ accuracy = some 0 ∨ (∀ x : ℚ, value ≠ .vfloat x) →
      set_value sheet value address accuracy =
        updateSheet sheet address value) ∧
    (∀ x : ℚ, set_value sheet (.vfloat x) address (some 0) =
      updateSheet sheet address (.vfloat x)) := by
  constructor
  · intro h
    rcases h with h | h | h
    · subst h
      cases value <;> rfl
    · subst h
      cases value <;> rfl
    · cases value with
      | vfloat x => exact absurd rfl (h x)
      | vnone => rfl
      | vint n => rfl
      | vbool b => rfl
      | vstr s => rfl
  · intro x
    rfl

/-- Witness for `set_value_rounding_policy`: a concrete float written with
`accuracy=0` reaches the cell unrounded. -/
theorem set_value_rounding_policy_witness :
    set_value (fun _ => Value.vnone) (Value.vfloat (3 / 2)) ['A', '1']
      (some 0) =
      updateSheet (fun _ => Value.vnone) ['A', '1'] (Value.vfloat (3 / 2)) ∧
    set_value (fun _ => Value.vnone) (Value.vstr ['x']) ['A', '1']
      (some 4) =
      updateSheet (fun _ => Value.vnone) ['A', '1'] (Value.vstr ['x']) := by
  have h1 := (set_value_rounding_policy (fun _ => Value.vnone)
    (Value.vfloat (3 / 2)) ['A', '1'] (some 0)).1
    (Or.inr (Or.inl rfl))
  have h2 := (set_value_rounding_policy (fun _ => Value.vnone)
    (Value.vstr ['x']) ['A', '1'] (some 4)).1
    (Or.inr (Or.inr (fun x h => by cases h)))
  exact ⟨h1, h2⟩

/-- C1 counterexample: with a cell-checker configuration whose predicate
rejects the (non-null) raw value, `get_number` does not return `None` as
the claim states — `CellChecker.check` raises `ValueError` instead. -/
theorem get_number_counterexample :
    get_number (fun _ => Value.vfloat 1) ['A', '1'] "float".toList
      (some ⟨fun _ => false, "value rejected"⟩) =
      .error "Unacceptable value of the cell `A1`.\nvalue rejected" ∧
    get_number (fun _ => Value.vfloat 1) ['A', '1'] "float".toList
      (some ⟨fun _ => false, "value rejected"⟩) ≠ .ok none := by
  constructor
  · rfl
  · intro h
    cases h

/-- C1 (amended): `get_number` fetches the raw cell value and runs it
through the validating predicate (default: always accept); when the value
fails acceptance it raises `ValueError` (it does not return `None`); when
the predicate accepts, it returns `None` if the raw value is null, and
otherwise coerces the value to float or int per the requested
`number_type`, raising `ValueError` on an unknown `number_type`. -/
theorem get_number_policy (sheet : Sheet) (address : PyStr)
    (number_type : PyStr) (kwargs : CheckerKwargs) :
    (kwargs.condition (sheet address) = false →
      get_number sheet address number_type (some kwargs) =
        .error ("Unacceptable value of the cell `" ++ String.mk address ++
          "`." ++ "\n" ++ kwargs.error_message)) ∧
    (kwargs.condition (sheet address) = true → sheet address = .vnone →
      get_number sheet address number_type (some kwargs) = .ok none) ∧
    (kwargs.condition (sheet address) = true → sheet address ≠ .vnone →
      number_type = "float".toList →
      get_number sheet address number_type (some kwargs) =
        (pyFloat (sheet address)).map (fun q => some (.vfloat q))) ∧
    (kwargs.condition (sheet address) = true → sheet address ≠ .vnone →
      number_type = "int".toList →
      get_number sheet address number_type (some kwargs) =
        (pyInt (sheet address)).map (fun n => some (.vint n))) ∧
    (kwargs.condition (sheet address) = true → sheet address ≠ .vnone →
      number_type ≠ "float".toList → number_type ≠ "int".toList →
      get_number sheet address number_type (some kwargs) =
        .error "Unacceptable `number_type`.") ∧
    get_number sheet address number_type none =
      get_number sheet address number_type (some {}) := by
  have hcheck : ∀ res : Bool, kwargs.condition (sheet address) = res →
      CellChecker.check
        ⟨sheet address, address, kwargs.condition, kwargs.error_message⟩ =
        if res then .ok true
        else .error ("Unacceptable value of the cell `" ++
          String.mk address ++ "`." ++ "\n" ++ kwargs.error_message) := by
    intro res hres
    simp only [CellChecker.check, CellChecker.get_error_message_for_cell]
    rw [hres]
  refine ⟨?_, ?_, ?_, ?_, ?_, rfl⟩
  · intro h
    simp only [get_number, Option.getD, bind, Except.bind, hcheck false h,
      Bool.false_eq_true, if_false]
  · intro h hn
    simp only [get_number, Option.getD, bind, Except.bind, hcheck true h]
    simp [hn, pure, Except.pure]
  · intro h hn hft
    simp only [get_number, Option.getD, bind, Except.bind, hcheck true h]
    simp [hn, hft]
  · intro h hn hit
    have hne : number_type ≠ "float".toList := by
      rw [hit]
      decide
    simp only [get_number, Option.getD, bind, Except.bind, hcheck true h]
    simp [hn, hne, hit]
  · intro h hn hft hit
    have hft' : number_type ≠ ['f', 'l', 'o', 'a', 't'] := by simpa using hft
    have hit' : number_type ≠ ['i', 'n', 't'] := by simpa using hit
    simp only [get_number, Option.getD, bind, Except.bind, hcheck true h]
    simp [hn, hft', hit']

/-- Witness for `get_number_policy`: reading a float cell as `'float'`
with the default (always-accepting) checker yields the float, and a null
cell yields `None`. -/
theorem get_number_policy_witness :
    get_number (fun _ => Value.vfloat (3 / 2)) ['B', '2'] "float".toList
      (some {}) = .ok (some (Value.vfloat (3 / 2))) ∧
    get_number (fun _ => Value.vnone) ['B', '2'] "int".toList
      (some {}) = .ok none := by
  have h1 := ((get_number_policy (fun _ => Value.vfloat (3 / 2)) ['B', '2']
    "float".toList {}).2.2.1) rfl (by decide) rfl
  have h2 := ((get_number_policy (fun _ => Value.vnone) ['B', '2']
    "int".toList {}).2.1) rfl rfl
  rw [h1]
  exact ⟨rfl, h2⟩

/-! ## Claims about the bulk write variants -/

theorem set_value_eq_update (sh : Sheet) (v : Value) (a : PyStr)
    (acc : Option ℤ) :
    set_value sh v a acc = updateSheet sh a (writtenValue v acc) := by
  cases v <;> cases acc <;> try rfl
  rename_i x n
  by_cases hn : n = 0
  · subst hn
    have ht : truthyOptInt (some (0 : ℤ)) = false := by
      simp [truthyOptInt]
    simp [set_value, writtenValue, ht]
  · have ht : truthyOptInt (some n) = true := by
      simp [truthyOptInt, hn]
    simp [set_value, writtenValue, ht, hn]

theorem foldl_set_value_preserve {ι : Type} (af : ι → PyStr) (vf : ι → Value)
    (acc : Option ℤ) :
    ∀ (idxs : List ι) (sh : Sheet) (x : PyStr) (w : Value), sh x = w →
      (∀ i ∈ idxs, af i = x → writtenValue (vf i) acc = w) →
      idxs.foldl (fun s i => set_value s (vf i) (af i) acc) sh x = w
  | [], sh, x, w, hsh, _ => hsh
  | i :: rest, sh, x, w, hsh, hall => by
    simp only [List.foldl_cons]
    refine foldl_set_value_preserve af vf acc rest _ x w ?_
      (fun i' hi' => hall i' (List.mem_cons_of_mem i hi'))
    rw [set_value_eq_update, updateSheet]
    by_cases hx : x = af i
    · rw [if_pos hx]
      exact hall i (List.mem_cons_self i rest) (hx ▸ rfl)
    · rw [if_neg hx]
      exact hsh

theorem foldl_set_value_writes {ι : Type} (af : ι → PyStr) (vf : ι → Value)
    (acc : Option ℤ) :
    ∀ (idxs : List ι) (sh : Sheet) (j : ι), j ∈ idxs →
      (∀ i ∈ idxs, af i = af j →
        writtenValue (vf i) acc = writtenValue (vf j) acc) →
      idxs.foldl (fun s i => set_value s (vf i) (af i) acc) sh (af j) =
        writtenValue (vf j) acc
  | [], _, j, hj, _ => absurd hj (List.not_mem_nil j)
  | i :: rest, sh, j, hj, hall => by
    rcases List.mem_cons.mp hj with hji | hj'
    · simp only [List.foldl_cons]
      refine foldl_set_value_preserve af vf acc rest _ (af j) _ ?_
        (fun i' hi' => hall i' (List.mem_cons_of_mem i hi'))
      rw [set_value_eq_update, updateSheet, hji, if_pos rfl]
    · simp only [List.foldl_cons]
      exact foldl_set_value_writes af vf acc rest _ j hj'
        (fun i' hi' => hall i' (List.mem_cons_of_mem i hi'))

theorem set_numbers_list_loop_eq (t : Table) (values : List Value)
    (acc : Option ℤ) (af : ℕ → PyStr) (valf : ℕ → Value) :
    ∀ (idxs : List ℕ) (a0 : PyStr) (sh : Sheet),
      (∀ i ∈ idxs, t.get_address (i : ℤ) 0 = .ok (af i)) →
      (∀ i ∈ idxs, pyListGet values i = .ok (valf i)) →
      set_numbers_list_loop t values acc idxs (a0, sh) =
        .ok (idxs.foldl (fun _ i => af i) a0,
          idxs.foldl (fun s i => set_value s (valf i) (af i) acc) sh)
  | [], a0, sh, _, _ => rfl
  | i :: rest, a0, sh, haddr, hvals => by
    simp only [set_numbers_list_loop, bind, Except.bind,
      haddr i (List.mem_cons_self i rest), hvals i (List.mem_cons_self i rest),
      List.foldl_cons]
    exact set_numbers_list_loop_eq t values acc af valf rest _ _
      (fun i' hi' => haddr i' (List.mem_cons_of_mem i hi'))
      (fun i' hi' => hvals i' (List.mem_cons_of_mem i hi'))

theorem clear_or_fill_loop_eq (t : Table) (acc : Option ℤ)
    (data : Option (List (PyStr × Value))) (pf : ℕ × ℕ → PyStr) :
    ∀ (prs : List (ℕ × ℕ)) (a0 : PyStr) (sh : Sheet),
      (∀ p ∈ prs, t.get_address (p.1 : ℤ) (p.2 : ℤ) = .ok (pf p)) →
      clear_or_fill_loop t acc data prs (a0, sh) =
        .ok (prs.foldl (fun _ p => pf p) a0,
          prs.foldl
            (fun s p => set_value s (tableItem data p.1 p.2) (pf p) acc) sh)
  | [], a0, sh, _ => rfl
  | p :: rest, a0, sh, haddr => by
    obtain ⟨sl, st⟩ := p
    simp only [clear_or_fill_loop, bind, Except.bind,
      haddr (sl, st) (List.mem_cons_self (sl, st) rest), List.foldl_cons]
    exact clear_or_fill_loop_eq t acc data pf rest _ _
      (fun p' hp' => haddr p' (List.mem_cons_of_mem (sl, st) hp'))

theorem foldl_choose_last {α : Type} (f : ℕ → α) (n : ℕ) (hn : 0 < n)
    (a0 : α) :
    (List.range n).foldl (fun _ i => f i) a0 = f (n - 1) := by
  cases n with
  | zero => omega
  | succ m => rw [List.range_succ, List.foldl_append]; rfl

theorem foldl_choose_last_pairs {α : Type} (f : ℕ × ℕ → α) (L T : ℕ)
    (hL : 0 < L) (hT : 0 < T) (a0 : α) :
    (tablePairs L T).foldl (fun _ p => f p) a0 = f (L - 1, T - 1) := by
  cases L with
  | zero => omega
  | succ l =>
    cases T with
    | zero => omega
    | succ t =>
      rw [tablePairs, List.range_succ, List.flatMap_append,
        List.foldl_append]
      simp only [List.flatMap_cons, List.flatMap_nil, List.append_nil,
        List.range_succ, List.map_append, List.foldl_append]
      rfl

theorem mem_tablePairs {L T : ℕ} {p : ℕ × ℕ} :
    p ∈ tablePairs L T ↔ p.1 < L ∧ p.2 < T := by
  obtain ⟨sl, st⟩ := p
  simp [tablePairs, List.mem_flatMap, List.mem_range]

/-- C8: the bulk write variants iterate the table's address sequence and
return the last written address: `set_numbers_list` writes
`values[i]` (through `set_value`, hence as `writtenValue values[i]
accuracy`) to the cell at longitudinal shift `i` (transverse shift 0) for
every `i` in `0..size_longitudinal-1` and returns the address at
longitudinal shift `size_longitudinal - 1`; `clear_or_fill_table` visits
every `(longitudinal, transverse)` pair of the rectangle, writing the
corresponding data item or `None` into each cell, and returns the address
at `(size_longitudinal - 1, size_transverse - 1)`.  The address map of the
table enters as a function `af`/`pf` characterised by `Table.get_address`,
with the table's addresses pairwise distinct. -/
theorem bulk_write_spec (sheet : Sheet) (t : Table) (values : List Value)
    (acc : Option ℤ) (data : Option (List (PyStr × Value)))
    (af : ℕ → PyStr) (valf : ℕ → Value) (pf : ℕ × ℕ → PyStr) (n L T : ℕ) :
    (t.size_longitudinal.toNat = n → 0 < n →
      (∀ i, i < n → t.get_address (i : ℤ) 0 = .ok (af i)) →
      (∀ i, i < n → pyListGet values i = .ok (valf i)) →
      (∀ i, i < n → ∀ j, j < n → i ≠ j → af i ≠ af j) →
      ∃ final, set_numbers_list sheet t values acc = .ok (af (n - 1), final) ∧
        ∀ i, i < n → final (af i) = writtenValue (valf i) acc) ∧
    (t.size_longitudinal.toNat = L → t.size_transverse.toNat = T →
      0 < L → 0 < T →
      (∀ sl, sl < L → ∀ st, st < T →
        t.get_address (sl : ℤ) (st : ℤ) = .ok (pf (sl, st))) →
      (∀ a1, a1 < L → ∀ a2, a2 < T → ∀ b1, b1 < L → ∀ b2, b2 < T →
        (a1, a2) ≠ (b1, b2) → pf (a1, a2) ≠ pf (b1, b2)) →
      ∃ final, clear_or_fill_table sheet t acc data =
        .ok (pf (L - 1, T - 1), final) ∧
        ∀ sl, sl < L → ∀ st, st < T →
          final (pf (sl, st)) = writtenValue (tableItem data sl st) acc) := by
  constructor
  · intro hn hpos haddr hvals hinj
    rw [set_numbers_list, hn,
      set_numbers_list_loop_eq t values acc af valf (List.range n) _ sheet
        (fun i hi => haddr i (List.mem_range.mp hi))
        (fun i hi => hvals i (List.mem_range.mp hi)),
      foldl_choose_last af n hpos]
    refine ⟨_, rfl, ?_⟩
    intro i hi
    refine foldl_set_value_writes af valf acc (List.range n) sheet i
      (List.mem_range.mpr hi) ?_
    intro i' hi' heq
    rcases eq_or_ne i' i with h | h
    · rw [h]
    · exact absurd heq (hinj i' (List.mem_range.mp hi') i hi h)
  · intro hL hT hLpos hTpos haddr hinj
    rw [clear_or_fill_table, hL, hT,
      clear_or_fill_loop_eq t acc data pf (tablePairs L T) _ sheet
        (fun p hp => haddr p.1 (mem_tablePairs.mp hp).1 p.2
          (mem_tablePairs.mp hp).2),
      foldl_choose_last_pairs pf L T hLpos hTpos]
    refine ⟨_, rfl, ?_⟩
    intro sl hsl st hst
    refine foldl_set_value_writes pf
      (fun p => tableItem data p.1 p.2) acc (tablePairs L T) sheet (sl, st)
      (mem_tablePairs.mpr ⟨hsl, hst⟩) ?_
    intro p hp heq
    rcases eq_or_ne p (sl, st) with h | h
    · rw [h]
    · exact absurd heq (hinj p.1 (mem_tablePairs.mp hp).1 p.2
        (mem_tablePairs.mp hp).2 sl hsl st hst (by simpa using h))

/-- Witness for `bulk_write_spec` on the vertical 3 × 2 table with first
cell `'A1'`: `set_numbers_list` writes 1, 2, 3 into `A1`, `A2`, `A3` and
returns `'A3'`; `clear_or_fill_table` with no data clears the six cells
and returns `'B3'`. -/
theorem bulk_write_spec_witness :
    (∃ final, set_numbers_list (fun _ => Value.vnone)
        ⟨⟨⟨1, 0⟩, ⟨'A', 0⟩, ['A', '1']⟩, .vertical, 3, 2⟩
        [.vint 1, .vint 2, .vint 3] none = .ok (['A', '3'], final) ∧
      final ['A', '1'] = .vint 1 ∧ final ['A', '2'] = .vint 2 ∧
      final ['A', '3'] = .vint 3) ∧
    (∃ final, clear_or_fill_table (fun _ => Value.vint 7)
        ⟨⟨⟨1, 0⟩, ⟨'A', 0⟩, ['A', '1']⟩, .vertical, 3, 2⟩ (some 2) none =
        .ok (['B', '3'], final) ∧
      final ['A', '1'] = .vnone ∧ final ['B', '2'] = .vnone) := by
  constructor
  · obtain ⟨final, h1, h2⟩ :=
      (bulk_write_spec (fun _ => Value.vnone)
        ⟨⟨⟨1, 0⟩, ⟨'A', 0⟩, ['A', '1']⟩, .vertical, 3, 2⟩
        [.vint 1, .vint 2, .vint 3] none none
        (fun i => ['A', Char.ofNat (49 + i)])
        (fun i => ([Value.vint 1, .vint 2, .vint 3].getD i .vnone))
        (fun p => [Char.ofNat (65 + p.2), Char.ofNat (49 + p.1)])
        3 3 2).1
      (by decide) (by decide) (by decide) (by decide) (by decide)
    exact ⟨final, h1, h2 0 (by decide), h2 1 (by decide), h2 2 (by decide)⟩
  · obtain ⟨final, h1, h2⟩ :=
      (bulk_write_spec (fun _ => Value.vint 7)
        ⟨⟨⟨1, 0⟩, ⟨'A', 0⟩, ['A', '1']⟩, .vertical, 3, 2⟩
        [] (some 2) none
        (fun i => ['A', Char.ofNat (49 + i)])
        (fun _ => Value.vnone)
        (fun p => [Char.ofNat (65 + p.2), Char.ofNat (49 + p.1)])
        3 3 2).2
      (by decide) (by decide) (by decide) (by decide) (by decide)
      (by
        intro a1 h1 a2 h2 b1 h3 b2 h4
        interval_cases a1 <;> interval_cases a2 <;> interval_cases b1 <;>
          interval_cases b2 <;> decide)
    exact ⟨final, h1, h2 0 (by decide) 0 (by decide),
      h2 1 (by decide) 1 (by decide)⟩

end ExcelAf
